import Mathlib

/-!
Shallow embedding of the product matching and relevance-ranking engine of
`products/search.py` (smart search with Cyrillic support and product
similarity scoring), together with proofs of the specified properties.

Strings are modelled as Lean `String` / `List Char`; Python `float` values
appearing in product attributes are modelled as exact rationals `ℚ`
(the program only adds, subtracts, divides and compares them in ranges far
away from binary-rounding boundaries); Python integers are `Int`/`Nat`.
Case mapping (`str.lower`, `str.upper`, `str.title`) is modelled on the
alphabets actually occurring in the program's data: ASCII Latin and
Russian Cyrillic (`а`-`я`, `А`-`Я`, `ё`, `Ё`); all other characters are
case-invariant in the model.  Character classes of the regular
expressions (`\d`, `\s`, `\w`) are modelled on the same alphabets.
-/

set_option allowUnsafeReducibility true

attribute [local semireducible] Rat.mul Rat.add Rat.sub Rat.div Rat.inv Rat.normalize Rat.neg

namespace Pricio

/-- Python `\d` (on the data alphabet): ASCII decimal digit. -/
def isDigit (c : Char) : Bool := '0' ≤ c && c ≤ '9'

/-- Python `str.split()` / `\s` whitespace class. -/
def isWs (c : Char) : Bool :=
  c = ' ' || c = '\t' || c = '\n' || c = '\x0d' || c = '\x0b' || c = '\x0c'

/-- ASCII lowercase letter. -/
def isAsciiLower (c : Char) : Bool := 'a' ≤ c && c ≤ 'z'

/-- ASCII uppercase letter. -/
def isAsciiUpper (c : Char) : Bool := 'A' ≤ c && c ≤ 'Z'

/-- Lowercase Cyrillic letter U+0430 (`а`) to U+044F (`я`), plus `ё`. -/
def isCyrLower (c : Char) : Bool := ('а' ≤ c && c ≤ 'я') || c = 'ё'

/-- Uppercase Cyrillic letter U+0410 (`А`) to U+042F (`Я`), plus `Ё`. -/
def isCyrUpper (c : Char) : Bool := ('А' ≤ c && c ≤ 'Я') || c = 'Ё'

/-- Cased letter of the modelled alphabets. -/
def isAlpha (c : Char) : Bool :=
  isAsciiLower c || isAsciiUpper c || isCyrLower c || isCyrUpper c

/-- Python `\w` word character (on the data alphabet): letter, digit or
underscore. -/
def isWordChar (c : Char) : Bool := isAlpha c || isDigit c || c = '_'

/-- Python `str.lower` on one character (ASCII and Cyrillic). -/
def lowerChar (c : Char) : Char :=
  if isAsciiUpper c then Char.ofNat (c.toNat + 32)
  else if 'А' ≤ c && c ≤ 'Я' then Char.ofNat (c.toNat + 32)
  else if c = 'Ё' then 'ё'
  else c

/-- Python `str.upper` on one character (ASCII and Cyrillic). -/
def upperChar (c : Char) : Char :=
  if isAsciiLower c then Char.ofNat (c.toNat - 32)
  else if 'а' ≤ c && c ≤ 'я' then Char.ofNat (c.toNat - 32)
  else if c = 'ё' then 'Ё'
  else c

/-- Python `str.lower` on a character list. -/
def pyLower (l : List Char) : List Char := l.map lowerChar

/-- Maximal runs of characters satisfying `p`, in order; characters not
satisfying `p` act as separators and are dropped.  This is the common
shape of Python `str.split()` (with `p` = "not whitespace") and of
`re.findall` over a character class.  A satisfying character extends the
run of the immediately following character when that one also satisfies
`p`, and otherwise opens a new run. -/
def splitRuns (p : Char → Bool) : List Char → List (List Char)
  | [] => []
  | c :: cs =>
    if p c then
      match cs, splitRuns p cs with
      | d :: _, w :: ws => if p d then (c :: w) :: ws else [c] :: w :: ws
      | _, r => [c] :: r
    else splitRuns p cs

/-- Python `' '.join(words)`. -/
def joinSpace : List (List Char) → List Char
  | [] => []
  | [w] => w
  | w :: ws => w ++ ' ' :: joinSpace ws

/-- Source `normalize_text` on character lists: lowercase, fold `ё` to
`е`, collapse whitespace runs to single spaces and trim the ends. -/
def normalizeList (l : List Char) : List Char :=
  joinSpace (splitRuns (fun c => !isWs c)
    ((pyLower l).map (fun c => if c = 'ё' then 'е' else c)))

/-- Source `normalize_text` (the `if not text: return ""` guard is
absorbed: the empty string normalizes to itself). -/
def normalize_text (s : String) : String := ⟨normalizeList s.data⟩

/-- Stop words to ignore in search (source constant `STOP_WORDS`). -/
def STOP_WORDS : List String :=
  ["магнит", "пятёрочка", "пятерочка", "для", "без", "или", "the", "штук", "шт",
   "упаковка", "пакет", "бзмж", "premium", "extra", "new", "global", "village",
   "напиток", "продукт", "изделие", "товар", "набор", "ассорти", "микс",
   "добавлением", "натуральный", "свежий", "вкусный", "домашний", "классический",
   "молочный", "молочная", "молочное", "детский", "детская", "взрослый",
   "гавайский", "тропический", "летняя", "летний", "садовая", "садовый",
   "лесная", "лесной", "красное", "красный", "белое", "белый", "зеленый", "зелёный",
   "фасованное", "фасованный", "отборные", "отборный", "сокосодержащий",
   "восстановленный", "протеиновый", "протеиновое", "высокобелковый",
   "энергетический", "газированный", "негазированный", "безалкогольный",
   "с", "и", "в", "на", "из", "по", "со", "к", "у", "о", "от",
   "уп", "упак", "and", "for", "with"]

/-- Delimiter class of `tokenize_query`'s `re.split(r'[\s,.\-_/\\()]+')`. -/
def isTokDelim (c : Char) : Bool :=
  isWs c || c = ',' || c = '.' || c = '-' || c = '_' || c = '/' ||
  c = '\\' || c = '(' || c = ')'

/-- Source `tokenize_query`: normalize, split on the delimiter class, keep
tokens of length at least 2 that are not stop words. -/
def tokenize_query (query : String) : List String :=
  ((splitRuns (fun c => !isTokDelim c) (normalize_text query).data).map
      (fun w => (⟨w⟩ : String))).filter
    (fun t => 2 ≤ t.length && !(STOP_WORDS.contains t))

/-- Suffixes stripped by `stem_russian`, in source order. -/
def STEM_ENDINGS : List String :=
  ["ами", "ями", "ах", "ях", "ов", "ев", "ей", "ий", "ый", "ая", "яя", "ое", "ее",
   "ы", "и", "а", "я", "у", "ю", "е", "о"]

/-- Source `stem_russian`: for words of length at least 4, strip the first
listed ending that matches and leaves at least 3 characters. -/
def stem_russian (word : String) : String :=
  if word.length < 4 then word
  else
    match STEM_ENDINGS.find? (fun e =>
        e.data.isSuffixOf word.data && decide (3 ≤ word.length - e.length)) with
    | some e => ⟨word.data.take (word.data.length - e.data.length)⟩
    | none => word

/-- Python substring test `needle in hay`. -/
def containsSub (hay needle : List Char) : Bool :=
  match hay with
  | [] => needle.isEmpty
  | _ :: t => needle.isPrefixOf hay || containsSub t needle

/-- Python substring test on strings. -/
def strContains (hay needle : String) : Bool := containsSub hay.data needle.data

/-- Character class `[а-яёa-z]` of the word-extraction regex in
`calculate_similarity_score`. -/
def isWordCls (c : Char) : Bool := ('а' ≤ c && c ≤ 'я') || c = 'ё' || isAsciiLower c

/-- The set `set(re.findall(r'[а-яёa-z]{3,}', s)) - STOP_WORDS` used by the
similarity scorer: maximal runs of the class of length at least 3, as a
set, minus the stop words. -/
def wordSet (s : String) : Finset String :=
  (((splitRuns isWordCls s.data).filter (fun w => 3 ≤ w.length)).map
      (fun w => (⟨w⟩ : String))).toFinset \ STOP_WORDS.toFinset

/-- First whitespace-delimited word of a normalized name
(`name_norm.split()[0] if name_norm else ""`). -/
def firstWord (s : String) : String :=
  match splitRuns (fun c => !isWs c) s.data with
  | [] => ""
  | w :: _ => ⟨w⟩

/-- Python `str.lower` on a string. -/
def pyLowerStr (s : String) : String := ⟨pyLower s.data⟩

/-- Python `str.title` (on the modelled alphabets): the first letter of
every maximal letter run is uppercased, the others lowercased. -/
def pyTitle (s : String) : String :=
  ⟨(s.data.foldl (fun (st : List Char × Bool) c =>
      if isAlpha c then ((if st.2 then lowerChar c else upperChar c) :: st.1, true)
      else (c :: st.1, false)) ([], false)).1.reverse⟩

/-!
### Structured product attributes (source `ProductAttributes`)
-/

/-- Structured product attributes extracted from a name.  Python floats
are modelled as rationals, Python `int` as `Int`. -/
structure ProductAttributes where
  product_type : Option String := none
  brand : Option String := none
  volume_ml : Option ℚ := none
  weight_g : Option ℚ := none
  fat_percent : Option ℚ := none
  quantity : Option ℤ := none
deriving DecidableEq, Repr

/-- Product type keywords for normalization (source `PRODUCT_TYPES`), in
declaration order, which Python dictionaries preserve. -/
def PRODUCT_TYPES : List (String × List String) :=
  [("молоко", ["молоко", "молочко"]),
   ("кефир", ["кефир"]),
   ("йогурт", ["йогурт", "йогу|рт"]),
   ("творог", ["творог", "творожок", "творожный", "творожная", "творожное"]),
   ("сметана", ["сметана"]),
   ("сливки", ["сливки"]),
   ("сыр", ["сыр", "сырок", "сырный", "сырная"]),
   ("масло", ["масло"]),
   ("колбаса", ["колбаса", "колбасный", "колбасная", "колбаски"]),
   ("сосиски", ["сосиски", "сосиска", "сардельки", "сарделька"]),
   ("ветчина", ["ветчина"]),
   ("бекон", ["бекон"]),
   ("курица", ["курица", "куриный", "куриная", "куриное", "цыплёнок", "цыпленок"]),
   ("индейка", ["индейка", "индюшиный", "индюшиная"]),
   ("свинина", ["свинина", "свиной", "свиная", "свиное"]),
   ("говядина", ["говядина", "говяжий", "говяжья", "говяжье"]),
   ("фарш", ["фарш"]),
   ("рыба", ["рыба", "рыбный", "рыбная", "рыбное"]),
   ("лосось", ["лосось", "сёмга", "семга", "форель"]),
   ("креветки", ["креветки", "креветка"]),
   ("хлеб", ["хлеб", "хлебец", "хлебцы"]),
   ("батон", ["батон", "багет"]),
   ("булка", ["булка", "булочка", "булочки"]),
   ("вино", ["вино"]),
   ("пиво", ["пиво"]),
   ("водка", ["водка"]),
   ("виски", ["виски"]),
   ("коньяк", ["коньяк"]),
   ("сок", ["сок", "нектар"]),
   ("вода", ["вода", "минералка", "минеральная"]),
   ("лимонад", ["лимонад", "газировка"]),
   ("чай", ["чай"]),
   ("кофе", ["кофе"]),
   ("шоколад", ["шоколад", "шоколадка", "шоколадный", "шоколадная"]),
   ("конфеты", ["конфеты", "конфета"]),
   ("печенье", ["печенье"]),
   ("торт", ["торт"]),
   ("мороженое", ["мороженое", "пломбир", "эскимо"]),
   ("чипсы", ["чипсы"]),
   ("яблоко", ["яблоко", "яблоки", "яблочный", "яблочная"]),
   ("банан", ["банан", "бананы"]),
   ("апельсин", ["апельсин", "апельсины", "апельсиновый"]),
   ("лимон", ["лимон", "лимоны"]),
   ("помидор", ["помидор", "помидоры", "томат", "томаты"]),
   ("огурец", ["огурец", "огурцы"]),
   ("картофель", ["картофель", "картошка"]),
   ("морковь", ["морковь", "морковка"]),
   ("лук", ["лук", "луковый"]),
   ("капуста", ["капуста"]),
   ("рис", ["рис", "рисовый", "рисовая"]),
   ("гречка", ["гречка", "гречневый", "гречневая", "греча"]),
   ("макароны", ["макароны", "паста", "спагетти", "пенне", "фузилли"]),
   ("курага", ["курага"]),
   ("изюм", ["изюм"]),
   ("чернослив", ["чернослив"]),
   ("орехи", ["орехи", "орех", "миндаль", "фундук", "грецкий", "кешью"])]

/-- The apostrophe character (written by code point to keep it out of the
surface syntax). -/
def apos : Char := Char.ofNat 39

/-- Known Russian brands (source `RUSSIAN_BRANDS`).  The source keeps them
in a Python `set`, whose iteration order is unspecified; the model fixes
declaration order as the canonical iteration order (the spec notes the
order is a don't-care for the curated data). -/
def RUSSIAN_BRANDS : List String :=
  ["простоквашино", "домик в деревне", "вкуснотеево", "савушкин", "брест-литовск",
   "черкизово", "мираторг", "останкино", "велком", "папа может",
   "добрый", "любимый", "фруктовый сад", "моя семья", "j7", "rich",
   "макфа", "барилла", "щебекинские",
   String.mk ['l', 'a', 'y', apos, 's'], "lays", "pringles", "cheetos",
   "аленка", "бабаевский", "красный октябрь", "коркунов", "merci",
   "bonduelle", "heinz", "calve", "mixbar", "greenfield", "ahmad",
   "lipton", "nescafe", "jacobs", "jardin", "tchibo"]

/-!
### Regular-expression matchers of `parse_product_attributes`

Each numeric pattern has the shape `(\d+(?:[.,]\d+)?)\s*UNIT`.  For these
patterns greedy matching without backtracking is exact: shortening the
digit runs or dropping the optional fraction always puts a digit or a
separator where the unit literal or `\s*`-then-unit must match, so no
backtracking alternative can succeed where the greedy parse fails.  The
search tries every start position from the left, as `re.search` does.
-/

/-- Result of matching `\d+(?:[.,]\d+)?` at the head of the input:
integer digits, optional separator and fraction digits, and remainder. -/
structure NumMatch where
  ip : List Char
  frac : Option (Char × List Char)
  rest : List Char
deriving DecidableEq, Repr

/-- Match `\d+(?:[.,]\d+)?` at the head of the input (greedy). -/
def matchNumber : List Char → Option NumMatch
  | [] => none
  | c :: cs =>
    if isDigit c then
      match cs.dropWhile isDigit with
      | s :: d :: r2 =>
        if (s = '.' || s = ',') && isDigit d then
          some ⟨c :: cs.takeWhile isDigit, some (s, d :: r2.takeWhile isDigit),
                r2.dropWhile isDigit⟩
        else some ⟨c :: cs.takeWhile isDigit, none, cs.dropWhile isDigit⟩
      | _ => some ⟨c :: cs.takeWhile isDigit, none, cs.dropWhile isDigit⟩
    else none

/-- Matched text of the optional fraction part. -/
def fracRender : Option (Char × List Char) → List Char
  | some (s, ds) => s :: ds
  | none => []

/-- Group 1 of a numeric match, as matched text. -/
def numGroup (nm : NumMatch) : List Char := nm.ip ++ fracRender nm.frac

/-- Python `\b` directly after a word character: boundary iff the next
character is absent or not a word character. -/
def boundaryAfterWord (rest : List Char) : Bool :=
  match rest with
  | [] => true
  | c :: _ => !isWordChar c

/-- Unit tail `(?:мл|ml)\b` of the milliliter pattern. -/
def unitMl (r : List Char) : Bool :=
  (['м', 'л'].isPrefixOf r && boundaryAfterWord (r.drop 2)) ||
  (['m', 'l'].isPrefixOf r && boundaryAfterWord (r.drop 2))

/-- Unit tail `л(?:итр|\b)` of the liter pattern (the alternative `итр`
needs no trailing boundary). -/
def unitL (r : List Char) : Bool :=
  match r with
  | 'л' :: rest => ['и', 'т', 'р'].isPrefixOf rest || boundaryAfterWord rest
  | _ => false

/-- Unit tail `(?:г|гр|грамм)(?!\w)` of the gram pattern. -/
def unitG (r : List Char) : Bool :=
  (['г'].isPrefixOf r && boundaryAfterWord (r.drop 1)) ||
  (['г', 'р'].isPrefixOf r && boundaryAfterWord (r.drop 2)) ||
  (['г', 'р', 'а', 'м', 'м'].isPrefixOf r && boundaryAfterWord (r.drop 5))

/-- Unit tail `кг\b` of the kilogram pattern. -/
def unitKg (r : List Char) : Bool :=
  ['к', 'г'].isPrefixOf r && boundaryAfterWord (r.drop 2)

/-- Unit tail `%` of the fat-percentage pattern (no boundary). -/
def unitPct (r : List Char) : Bool :=
  match r with
  | c :: _ => c = '%'
  | [] => false

/-- Model of `re.search` for `(\d+(?:[.,]\d+)?)\s*UNIT`: try every start
position from the left; at a digit, match the number greedily, skip
whitespace and test the unit tail.  Returns group 1 of the first match. -/
def searchNumUnit (unit : List Char → Bool) : List Char → Option (List Char)
  | [] => none
  | c :: cs =>
    match matchNumber (c :: cs) with
    | some nm =>
      if unit (nm.rest.dropWhile isWs) then some (numGroup nm)
      else searchNumUnit unit cs
    | none => searchNumUnit unit cs

/-- Model of `re.search(r'(\d+)\s*(?:шт|штук)|x(\d+)', ...)`: at every
position try the piece-count alternative, then the `x`-prefixed count;
returns the digit group of the first match (`group(1) or group(2)`). -/
def searchQty : List Char → Option (List Char)
  | [] => none
  | c :: cs =>
    if isDigit c && ['ш', 'т'].isPrefixOf ((cs.dropWhile isDigit).dropWhile isWs) then
      some (c :: cs.takeWhile isDigit)
    else if c = 'x' then
      match cs with
      | d :: rest => if isDigit d then some (d :: rest.takeWhile isDigit) else searchQty cs
      | [] => none
    else searchQty cs

/-- Characters of the classes `[A-Z]` / `[a-zA-Z']` of the Latin-brand
pattern. -/
def isBrandChar (c : Char) : Bool := isAsciiLower c || isAsciiUpper c || c = apos

/-- Python `\b` as a transition boundary between the last matched
character and the remainder: exactly one side is a word character. -/
def transitionB (last : Char) (rest : List Char) : Bool :=
  isWordChar last != (match rest with | [] => false | c :: _ => isWordChar c)

/-- Nonempty prefixes of a list, longest first — the candidate orders a
greedy `+` repetition is tried in under backtracking. -/
def prefixesDesc (l : List Char) : List (List Char) :=
  (List.range l.length).map (fun i => l.take (l.length - i))

/-- First successful application of `f`, in list order. -/
def firstSome {α β : Type} (f : α → Option β) : List α → Option β
  | [] => none
  | a :: as =>
    match f a with
    | some b => some b
    | none => firstSome f as

/-- Match the optional second brand word `(?:\s+[A-Z][a-zA-Z']+)?` at the
input: greedy whitespace, an uppercase letter, then the longest brand-char
run whose trailing `\b` holds.  Returns the matched text and its length. -/
def matchSecondWord (rest : List Char) : Option (List Char × Nat) :=
  let sp := rest.takeWhile isWs
  match rest.dropWhile isWs with
  | u :: r2 =>
    if sp.isEmpty || !isAsciiUpper u then none
    else
      firstSome (fun pr =>
        match pr.getLast? with
        | none => none
        | some lc =>
          if transitionB lc (r2.drop pr.length) then
            some (sp ++ u :: pr, sp.length + 1 + pr.length)
          else none) (prefixesDesc (r2.takeWhile isBrandChar))
  | [] => none

/-- Match `[A-Z][a-zA-Z']+(?:\s+[A-Z][a-zA-Z']+)?\b` given the uppercase
head `c` and the remaining input `cs`: for each greedy run prefix (longest
first) try the optional second word, then the bare run, under the
trailing boundary.  Returns the matched group and the number of
characters consumed from `cs`. -/
def matchBrandAt (c : Char) (cs : List Char) : Option (List Char × Nat) :=
  firstSome (fun pr =>
    match pr.getLast? with
    | none => none
    | some lc =>
      let rem := cs.drop pr.length
      match matchSecondWord rem with
      | some (opt, n2) => some (c :: pr ++ opt, pr.length + n2)
      | none => if transitionB lc rem then some (c :: pr, pr.length) else none)
    (prefixesDesc (cs.takeWhile isBrandChar))

/-- Scanner core of the brand `findall`, structurally recursive on a fuel
bound (one unit per consumed character, so the input length suffices). -/
def findBrandsAux (prevWord : Bool) : ℕ → List Char → List (List Char)
  | 0, _ => []
  | _, [] => []
  | fuel + 1, c :: cs =>
    if !prevWord && isAsciiUpper c then
      match matchBrandAt c cs with
      | some (g, n) => g :: findBrandsAux (isWordChar (g.getLastD c)) fuel (cs.drop n)
      | none => findBrandsAux (isWordChar c) fuel cs
    else findBrandsAux (isWordChar c) fuel cs

/-- Model of `re.findall(r'\b([A-Z][a-zA-Z\']+(?:\s+[A-Z][a-zA-Z\']+)?)\b',
name)`: scan left to right with the previous character's wordness as
boundary context; matches are non-overlapping. -/
def findBrands (prevWord : Bool) (l : List Char) : List (List Char) :=
  findBrandsAux prevWord l.length l

/-- Python `max(l, key=len)`: the first element of greatest length. -/
def pyMaxByLen (l : List (List Char)) : Option (List Char) :=
  l.foldl (fun acc g =>
    match acc with
    | none => some g
    | some b => if g.length > b.length then some g else acc) none

/-- Numeric value of a digit string (the value `int` returns on it). -/
def digitsVal (l : List Char) : ℕ :=
  l.foldl (fun a c => 10 * a + (c.toNat - 48)) 0

/-- Python `int(s)` on the strings the matchers produce: defined exactly
on nonempty digit strings, `none` models `ValueError`. -/
def pyInt (l : List Char) : Option ℤ :=
  if !l.isEmpty && l.all isDigit then some (digitsVal l) else none

/-- Python `float(s)` on the strings the matchers produce: defined
exactly on `digits` and `digits.digits`, `none` models `ValueError`. -/
def pyFloat (l : List Char) : Option ℚ :=
  match l with
  | [] => none
  | c :: cs =>
    if isDigit c then
      match cs.dropWhile isDigit with
      | [] => some (digitsVal (c :: cs.takeWhile isDigit))
      | '.' :: r =>
        if !r.isEmpty && r.all isDigit then
          some ((digitsVal (c :: cs.takeWhile isDigit) : ℚ) + (digitsVal r : ℚ) / 10 ^ r.length)
        else none
      | _ => none
    else none

/-- Source `.replace(',', '.')` applied to a matched group. -/
def replComma (l : List Char) : List Char :=
  l.map (fun c => if c = ',' then '.' else c)

/-- Total value of `float(group.replace(',', '.'))`; the default is never
reached (theorem `parse_never_fails`). -/
def floatOfGroup (g : List Char) : ℚ := (pyFloat (replComma g)).getD 0

/-- Volume extraction of `parse_product_attributes`: milliliter pattern
first, liter pattern (times 1000) as fallback. -/
def parseVolume (nl : List Char) : Option ℚ :=
  match searchNumUnit unitMl nl with
  | some g => some (floatOfGroup g)
  | none =>
    match searchNumUnit unitL nl with
    | some g => some (floatOfGroup g * 1000)
    | none => none

/-- Weight extraction of `parse_product_attributes`: gram pattern first,
kilogram pattern (times 1000) as fallback. -/
def parseWeight (nl : List Char) : Option ℚ :=
  match searchNumUnit unitG nl with
  | some g => some (floatOfGroup g)
  | none =>
    match searchNumUnit unitKg nl with
    | some g => some (floatOfGroup g * 1000)
    | none => none

/-- Fat-percentage extraction of `parse_product_attributes`. -/
def parseFat (nl : List Char) : Option ℚ :=
  (searchNumUnit unitPct nl).map floatOfGroup

/-- Pack-quantity extraction of `parse_product_attributes`. -/
def parseQty (nl : List Char) : Option ℤ :=
  (searchQty nl).map (fun ds => (pyInt ds).getD 0)

/-- Brand extraction of `parse_product_attributes`: longest capitalized
Latin match from the original-case name, else the first known Russian
brand contained in the lowered name, in title case. -/
def parseBrand (name : String) (nl : List Char) : Option String :=
  match pyMaxByLen (findBrands false name.data) with
  | some g => some ⟨g⟩
  | none => (RUSSIAN_BRANDS.find? (fun b => containsSub nl b.data)).map pyTitle

/-- Product-type extraction of `parse_product_attributes`: first listed
type with a keyword contained in the lowered name. -/
def parseType (nl : List Char) : Option String :=
  (PRODUCT_TYPES.find? (fun pt => pt.2.any (fun k => containsSub nl k.data))).map (·.1)

/-- Source `parse_product_attributes`: extract structured attributes from
a product name.  The fallible `float`/`int` conversions are totalized
with `floatOfGroup` / `pyInt ... |>.getD 0`; `parse_product_attributesE`
below keeps them fallible and is proven to agree. -/
def parse_product_attributes (name : String) : ProductAttributes :=
  { product_type := parseType (pyLower name.data),
    brand := parseBrand name (pyLower name.data),
    volume_ml := parseVolume (pyLower name.data),
    weight_g := parseWeight (pyLower name.data),
    fat_percent := parseFat (pyLower name.data),
    quantity := parseQty (pyLower name.data) }

/-!
### Specification-side predicates for fat-percentage extraction

These definitions follow the specification's words (not the source) so
the extraction behaviour can be compared against them: a "decimal
number" is one or more digits optionally followed by a decimal separator
(period or comma) and one or more digits.
-/

/-- Value of a decimal written as integer digits and an optional
separator-plus-fraction-digits part, the separator read as a period. -/
def specDecimalVal (ip : List Char) (fp : Option (Char × List Char)) : ℚ :=
  digitsVal ip + match fp with
    | some (_, ds) => (digitsVal ds : ℚ) / 10 ^ ds.length
    | none => 0

/-- Stated shape of the optional fraction part of a decimal number. -/
def FracShape : Option (Char × List Char) → Prop
  | none => True
  | some (s, ds) => (s = '.' ∨ s = ',') ∧ ds ≠ [] ∧ ∀ c ∈ ds, isDigit c = true

/-- The claim's predicate, verbatim: the text contains a decimal number
immediately followed by a percent sign (no characters in between).
Scanning for a maximal decimal directly before `'%'` is equivalent to the
existence of any decimal substring directly before `'%'`, since a decimal
extends through every digit up to the non-digit that follows it. -/
def specFatImmediate (l : List Char) : Bool :=
  match l with
  | [] => false
  | c :: cs =>
    (match matchNumber (c :: cs) with
     | some nm => unitPct nm.rest
     | none => false) || specFatImmediate cs

/-- The amended predicate: the text contains a decimal number followed,
possibly after whitespace, by a percent sign. -/
def FatPatternWs (l : List Char) : Prop :=
  ∃ A ip fp S B, ip ≠ [] ∧ (∀ c ∈ ip, isDigit c = true) ∧ FracShape fp ∧
    (∀ c ∈ S, isWs c = true) ∧ l = A ++ ip ++ fracRender fp ++ S ++ '%' :: B

/-!
### Similarity scoring (source `calculate_similarity_score`)

The source accumulates `score` and a `first_word_match` flag through an
`if`/`elif` cascade.  The model factors the cascade into one function per
rule block; `base` is `some s` when some gate branch fired with bonus `s`
(`first_word_match` true, or the two-common-words fallback), `none` when
the function returns `0` early.
-/

/-- Python truthiness of an optional string (`None` and `""` are falsy). -/
def truthyS : Option String → Bool
  | none => false
  | some s => !s.data.isEmpty

/-- Python truthiness of an optional float (`None` and `0.0` are falsy). -/
def truthyQ : Option ℚ → Bool
  | none => false
  | some x => x != 0

/-- First-word block: equal heads give 35, stem-equal 30, substring
containment 25; empty heads (falsy) skip the block. -/
def firstWordBranch (fw1 fw2 : String) : Option Int :=
  if !fw1.data.isEmpty && !fw2.data.isEmpty then
    if fw1 = fw2 then some 35
    else if stem_russian fw1 = stem_russian fw2 then some 30
    else if strContains fw2 fw1 || strContains fw1 fw2 then some 25
    else none
  else none

/-- Product-type fallback block: equal types give 30, stem-equal 25;
missing or empty (falsy) types skip the block. -/
def typeBranch (t1 t2 : Option String) : Option Int :=
  match t1, t2 with
  | some s1, some s2 =>
    if !s1.data.isEmpty && !s2.data.isEmpty then
      if s1 = s2 then some 30
      else if stem_russian s1 = stem_russian s2 then some 25
      else none
    else none
  | _, _ => none

/-- Brand block: same brand 35, different brands 5, exactly one brand 3,
neither 10. -/
def brandScore (b1 b2 : Option String) : Int :=
  if truthyS b1 && truthyS b2 then
    if pyLowerStr (b1.getD "") = pyLowerStr (b2.getD "") then 35 else 5
  else if truthyS b1 || truthyS b2 then 3
  else 10

/-- Size-ratio bonus shared by the volume and weight branches (the ratio
`min / max` written out at each threshold test). -/
def ratioScore (a b : ℚ) : Int :=
  if min a b / max a b > 19 / 20 then 12
  else if min a b / max a b > 4 / 5 then 8
  else if min a b / max a b > 1 / 2 then 4
  else 0

/-- Volume/weight block: volume preferred when both present (and nonzero,
by Python truthiness), else weight. -/
def vwScore (v1 v2 w1 w2 : Option ℚ) : Int :=
  if truthyQ v1 && truthyQ v2 then ratioScore (v1.getD 0) (v2.getD 0)
  else if truthyQ w1 && truthyQ w2 then ratioScore (w1.getD 0) (w2.getD 0)
  else 0

/-- Fat-percentage block: absolute difference below 0.5 gives 8, below
1.5 gives 4. -/
def fatScore (f1 f2 : Option ℚ) : Int :=
  if truthyQ f1 && truthyQ f2 then
    if |f1.getD 0 - f2.getD 0| < 1 / 2 then 8
    else if |f1.getD 0 - f2.getD 0| < 3 / 2 then 4
    else 0
  else 0

/-- Word-set Jaccard block: `int(|inter| / |union| * 15)`.  The float
quotient is modelled exactly; truncation of the nonnegative value is the
natural-number floor division `15 * i / u`. -/
def jacScore (w1 w2 : Finset String) : Int :=
  if w1.Nonempty ∧ w2.Nonempty then
    if 0 < (w1 ∪ w2).card then ((15 * (w1 ∩ w2).card / (w1 ∪ w2).card : ℕ) : ℤ)
    else 0
  else 0

/-- Gate of the scorer: `some bonus` when a branch fired (the source's
`first_word_match` flag, or the two-common-words fallback), `none` when
the source returns 0 early. -/
def scoreBase (fw1 fw2 : String) (t1 t2 : Option String)
    (words1 words2 : Finset String) : Option Int :=
  match firstWordBranch fw1 fw2 with
  | some s => some s
  | none =>
    match typeBranch t1 t2 with
    | some s => some s
    | none => if 2 ≤ (words1 ∩ words2).card then some 20 else none

/-- Source `calculate_similarity_score`: similarity of two products from
their attributes and names, clamped to 100 (0 on gate failure). -/
def calculate_similarity_score (attrs1 attrs2 : ProductAttributes)
    (name1 name2 : String) : Int :=
  let n1 := normalize_text name1
  let n2 := normalize_text name2
  let words1 := wordSet n1
  let words2 := wordSet n2
  match scoreBase (firstWord n1) (firstWord n2) attrs1.product_type attrs2.product_type
      words1 words2 with
  | none => 0
  | some b =>
    min (b + brandScore attrs1.brand attrs2.brand
           + vwScore attrs1.volume_ml attrs2.volume_ml attrs1.weight_g attrs2.weight_g
           + fatScore attrs1.fat_percent attrs2.fat_percent
           + jacScore words1 words2) 100

/-!
### Catalog layer (search and match finding)

A product record carries the fields the engine reads; the database is a
list of records, and the ORM query `Product.objects.filter(store_id=...)`
becomes a list filter.  Python's `list.sort` is a stable sort by a key
tuple; the model uses `List.insertionSort` with the key order as a total
preorder — both sorts are stable, so they agree on every input.
-/

/-- Product record (the fields of the Django `Product` model the search
engine reads; `current_price` is a non-null decimal that defaults to 0). -/
structure Product where
  product_id : String
  store_id : String
  name : String
  category_name : String
  current_price : ℚ
deriving DecidableEq, Repr

/-- Price-per-unit descriptor (`{'value': ..., 'unit': ..., 'display':
...}`); the `display` entry is presentation-only decimal formatting of
`value` and `unit` and is not modelled. -/
structure PricePerUnit where
  value : ℚ
  unit : String
deriving DecidableEq, Repr

/-- Source `calculate_price_per_unit`: price per liter when a positive
volume is known, else per kilogram when a positive weight is known. -/
def calculate_price_per_unit (p : Product) : Option PricePerUnit :=
  let attrs := parse_product_attributes p.name
  let price := p.current_price
  if price = 0 then none
  else if truthyQ attrs.volume_ml && decide (0 < attrs.volume_ml.getD 0) then
    some ⟨price / attrs.volume_ml.getD 0 * 1000, "л"⟩
  else if truthyQ attrs.weight_g && decide (0 < attrs.weight_g.getD 0) then
    some ⟨price / attrs.weight_g.getD 0 * 1000, "кг"⟩
  else none

/-- Token list used by `smart_search`: `tokenize_query`, with a fallback
to an unfiltered whitespace split when every token was a stop word. -/
def smartTokens (query : String) : List String :=
  let tokens := tokenize_query query
  if tokens.isEmpty then
    ((splitRuns (fun c => !isWs c) (normalize_text query).data).map
        (fun w => (⟨w⟩ : String))).filter (fun t => 2 ≤ t.length)
  else tokens

/-- Relevance score of one product against a query in `smart_search`:
whole-phrase bonus (+100, +20 more on prefix), per-token bonuses (+30
verbatim, +20 stemmed), all-tokens bonus (+25), category bonus (+15). -/
def smartScore (qn : String) (tokens : List String) (p : Product) : Int :=
  let nn := normalize_text p.name
  let phrase : Int :=
    if strContains nn qn then (if qn.data.isPrefixOf nn.data then 120 else 100) else 0
  let tok := tokens.foldl (fun (acc : Int × ℕ) t =>
      if strContains nn t then (acc.1 + 30, acc.2 + 1)
      else
        let st := stem_russian t
        if 3 ≤ st.length && strContains nn st then (acc.1 + 20, acc.2 + 1) else acc)
    (0, 0)
  let bonus : Int := if tok.2 = tokens.length ∧ 1 < tokens.length then 25 else 0
  let cat : Int :=
    if !p.category_name.data.isEmpty && strContains (normalize_text p.category_name) qn then 15
    else 0
  phrase + tok.1 + bonus + cat

/-- Ranking order of `smart_search` results: the Python sort key
`(-score, product.name)`, as a total preorder. -/
def searchLe (x y : Product × Int) : Prop :=
  y.2 < x.2 ∨ (x.2 = y.2 ∧ x.1.name ≤ y.1.name)

instance : DecidableRel searchLe := fun x y => by
  unfold searchLe; exact inferInstance

/-- Catalog slice scanned by `smart_search`: the store's products,
optionally restricted to a (truthy) category. -/
def searchCatalog (db : List Product) (store_id : String)
    (category : Option String) : List Product :=
  if truthyS category then
    (db.filter (fun p => p.store_id = store_id)).filter
      (fun p => p.category_name = category.getD "")
  else db.filter (fun p => p.store_id = store_id)

/-- Source `smart_search`: smart product search with relevance scoring
over the products of one store. -/
def smart_search (db : List Product) (store_id : String) (query : String)
    (category : Option String) (limit : ℕ) : List (Product × Int) :=
  if query.length < 2 then []
  else if (smartTokens query).isEmpty then []
  else
    (((searchCatalog db store_id category).filterMap (fun p =>
        let s := smartScore (normalize_text query) (smartTokens query) p
        if 0 < s then some (p, s) else none)).insertionSort searchLe).take limit

/-- Scored candidate returned by `get_similar_products_v2` (the dict with
keys `product`, `similarity_score`, `price_diff`, `is_cheaper`,
`is_exact_match`, `price_per_unit`). -/
structure ScoredCandidate where
  product : Product
  similarity_score : Int
  price_diff : ℚ
  is_cheaper : Bool
  is_exact_match : Bool
  price_per_unit : Option PricePerUnit
deriving DecidableEq, Repr

/-- Search-term set of `get_similar_products_v2` (a Python `set` of
strings used only for an existence test, modelled as a list): tokens of
length at least 3 and their stems, the product type and its stem, the
brand. If empty, the first word of the normalized name when long enough. -/
def buildSearchTerms (source_attrs : ProductAttributes) (product_name : String) : List String :=
  let terms1 := (tokenize_query product_name).foldl (fun acc w =>
      if 3 ≤ w.length then
        let acc := acc ++ [w]
        let st := stem_russian w
        if 3 ≤ st.length then acc ++ [st] else acc
      else acc) []
  let terms2 :=
    if truthyS source_attrs.product_type then
      let pt := pyLowerStr (source_attrs.product_type.getD "")
      let st := stem_russian pt
      [pt] ++ (if 3 ≤ st.length then [st] else [])
    else []
  let terms3 :=
    if truthyS source_attrs.brand then [pyLowerStr (source_attrs.brand.getD "")] else []
  let terms := terms1 ++ terms2 ++ terms3
  if terms.isEmpty then
    let fw := firstWord (normalize_text product_name)
    if 3 ≤ fw.length then [fw] else []
  else terms

/-- Candidate collection loop of `get_similar_products_v2`: skip already
seen identifiers (initially the source product), keep products whose
normalized name contains some search term. -/
def collectCandidates (terms : List String) : List String → List Product → List Product
  | _, [] => []
  | seen, p :: ps =>
    if seen.contains p.product_id then collectCandidates terms seen ps
    else if terms.any (fun t => strContains (normalize_text p.name) t) then
      p :: collectCandidates terms (p.product_id :: seen) ps
    else collectCandidates terms seen ps

/-- The local `cand_price = float(price) if price else 0` of
`get_similar_products_v2` (the identity on a non-null decimal). -/
def candPrice (cand : Product) : ℚ :=
  if cand.current_price ≠ 0 then cand.current_price else 0

/-- The stored price difference: zero when the source price is falsy. -/
def candPriceDiff (current_price : ℚ) (cand : Product) : ℚ :=
  if current_price ≠ 0 then candPrice cand - current_price else 0

/-- Similarity of one candidate against the source product. -/
def candScore (source_attrs : ProductAttributes) (product_name : String)
    (cand : Product) : Int :=
  calculate_similarity_score source_attrs (parse_product_attributes cand.name)
    product_name cand.name

/-- Scoring and enrichment of one candidate in `get_similar_products_v2`;
`none` when the score is at most the minimum relevance threshold 20. -/
def scoreCandidate (source_attrs : ProductAttributes) (product_name : String)
    (current_price : ℚ) (cand : Product) : Option ScoredCandidate :=
  if 20 < candScore source_attrs product_name cand then
    some { product := cand,
           similarity_score := candScore source_attrs product_name cand,
           price_diff := candPriceDiff current_price cand,
           is_cheaper := decide (candPriceDiff current_price cand < -(1 / 100)),
           is_exact_match := decide (70 ≤ candScore source_attrs product_name cand),
           price_per_unit := calculate_price_per_unit cand }
  else none

/-- Ranking order of `get_similar_products_v2`: the Python sort key
`(-similarity_score, float(product.current_price or 0))` (the `or 0` is
the identity on a non-null decimal), as a total preorder. -/
def candLe (x y : ScoredCandidate) : Prop :=
  y.similarity_score < x.similarity_score ∨
    (x.similarity_score = y.similarity_score ∧
      x.product.current_price ≤ y.product.current_price)

instance : DecidableRel candLe := fun x y => by
  unfold candLe; exact inferInstance

/-- Source `get_similar_products_v2`: advanced similar products search
with multi-level scoring (the `category` parameter exists in the source
signature but is never read). -/
def get_similar_products_v2 (db : List Product) (store_id : String)
    (product_name : String) (product_id : String) (current_price : ℚ)
    (category : Option String) (limit : ℕ) : List ScoredCandidate :=
  let _ := category
  let source_attrs := parse_product_attributes product_name
  let terms := buildSearchTerms source_attrs product_name
  let all_products := db.filter (fun p => p.store_id = store_id)
  let candidates := collectCandidates terms [product_id] all_products
  let scored := candidates.filterMap (scoreCandidate source_attrs product_name current_price)
  (scored.insertionSort candLe).take limit

/-- The competitor store (`'magnit' if source_store == '5ka' else '5ka'`). -/
def otherStore (source_store : String) : String :=
  if source_store = "5ka" then "magnit" else "5ka"

/-- Source `find_exact_match_cross_store`: best candidate in the other
store, required to score at least 60. -/
def find_exact_match_cross_store (db : List Product) (product_name : String)
    (product_id : String) (source_store : String) (current_price : ℚ) :
    Option ScoredCandidate :=
  match get_similar_products_v2 db (otherStore source_store) product_name product_id
      current_price none 1 with
  | s :: _ => if 60 ≤ s.similarity_score then some s else none
  | [] => none

/-- Source `get_cross_store_comparison`: similar products in the other
store for price comparison. -/
def get_cross_store_comparison (db : List Product) (product_name : String)
    (product_id : String) (source_store : String) (current_price : ℚ)
    (limit : ℕ) : List ScoredCandidate :=
  get_similar_products_v2 db (otherStore source_store) product_name product_id
    current_price none limit

/-!
### Exception-aware variants

`parse_product_attributes` and `calculate_similarity_score` contain a few
operations that can raise in Python: `float`/`int` conversion of a
matched group (`ValueError`), the index `name_norm.split()[0]`
(`IndexError`) and the ratio division (`ZeroDivisionError`).  The
variants below return `Except.error` exactly at those points; the safety
theorems show they always return `Except.ok` of the total functions'
results, i.e. no exception is ever reached.
-/

/-- Fallible `float(group.replace(',', '.'))`. -/
def floatE (g : List Char) : Except String ℚ :=
  match pyFloat (replComma g) with
  | some v => Except.ok v
  | none => Except.error "ValueError"

/-- Fallible `int(group)`. -/
def intE (ds : List Char) : Except String ℤ :=
  match pyInt ds with
  | some v => Except.ok v
  | none => Except.error "ValueError"

/-- Exception-aware volume extraction. -/
def parseVolumeE (nl : List Char) : Except String (Option ℚ) :=
  match searchNumUnit unitMl nl with
  | some g => Except.map some (floatE g)
  | none =>
    match searchNumUnit unitL nl with
    | some g => Except.map (fun v => some (v * 1000)) (floatE g)
    | none => pure none

/-- Exception-aware weight extraction. -/
def parseWeightE (nl : List Char) : Except String (Option ℚ) :=
  match searchNumUnit unitG nl with
  | some g => Except.map some (floatE g)
  | none =>
    match searchNumUnit unitKg nl with
    | some g => Except.map (fun v => some (v * 1000)) (floatE g)
    | none => pure none

/-- Exception-aware fat-percentage extraction. -/
def parseFatE (nl : List Char) : Except String (Option ℚ) :=
  match searchNumUnit unitPct nl with
  | some g => Except.map some (floatE g)
  | none => pure none

/-- Exception-aware pack-quantity extraction. -/
def parseQtyE (nl : List Char) : Except String (Option ℤ) :=
  match searchQty nl with
  | some ds => Except.map some (intE ds)
  | none => pure none

/-- Exception-aware `parse_product_attributes`. -/
def parse_product_attributesE (name : String) : Except String ProductAttributes := do
  let volume_ml ← parseVolumeE (pyLower name.data)
  let weight_g ← parseWeightE (pyLower name.data)
  let fat_percent ← parseFatE (pyLower name.data)
  let quantity ← parseQtyE (pyLower name.data)
  pure { product_type := parseType (pyLower name.data),
         brand := parseBrand name (pyLower name.data),
         volume_ml := volume_ml, weight_g := weight_g,
         fat_percent := fat_percent, quantity := quantity }

/-- Fallible `name_norm.split()[0] if name_norm else ""`. -/
def firstWordE (s : String) : Except String String :=
  if s.data.isEmpty then pure ""
  else
    match splitRuns (fun c => !isWs c) s.data with
    | [] => Except.error "IndexError"
    | w :: _ => pure ⟨w⟩

/-- Fallible ratio block: the division `min/max` raises when the maximum
is zero. -/
def ratioScoreE (a b : ℚ) : Except String Int :=
  if max a b = 0 then Except.error "ZeroDivisionError" else pure (ratioScore a b)

/-- Exception-aware `calculate_similarity_score`. -/
def calculate_similarity_scoreE (attrs1 attrs2 : ProductAttributes)
    (name1 name2 : String) : Except String Int := do
  let n1 := normalize_text name1
  let n2 := normalize_text name2
  let words1 := wordSet n1
  let words2 := wordSet n2
  let fw1 ← firstWordE n1
  let fw2 ← firstWordE n2
  match scoreBase fw1 fw2 attrs1.product_type attrs2.product_type words1 words2 with
  | none => pure 0
  | some b => do
    let vw : Int ←
      if truthyQ attrs1.volume_ml && truthyQ attrs2.volume_ml then
        ratioScoreE (attrs1.volume_ml.getD 0) (attrs2.volume_ml.getD 0)
      else if truthyQ attrs1.weight_g && truthyQ attrs2.weight_g then
        ratioScoreE (attrs1.weight_g.getD 0) (attrs2.weight_g.getD 0)
      else pure 0
    pure (min (b + brandScore attrs1.brand attrs2.brand + vw
                 + fatScore attrs1.fat_percent attrs2.fat_percent
                 + jacScore words1 words2) 100)

/-!
### Concrete fixtures

Small catalogs used to instantiate the verified statements on concrete
inputs.
-/

/-- One-product store catalog: a milk product priced 5. -/
def fixtureDbMilk : List Product :=
  [⟨"c1", "magnit", "молоко 1л", "", 5⟩]

/-- The scored candidate `get_similar_products_v2` produces for
`fixtureDbMilk` against the source name "молоко 1л" and source price 7. -/
def fixtureMilkEntry : ScoredCandidate :=
  ⟨⟨"c1", "magnit", "молоко 1л", "", 5⟩, 72, -2, true, true, some ⟨5, "л"⟩⟩

/-- Cross-store catalog whose best candidate scores between 20 and 60. -/
def fixtureDbCross : List Product :=
  [⟨"c2", "5ka", "молоко Bbb 2л", "", 9⟩]

/-- One-product catalog used for the empty-search fixture. -/
def fixtureDbBread : List Product :=
  [⟨"b1", "magnit", "хлеб", "", 30⟩]

/-!
### Supporting lemmas
-/

theorem get_similar_products_v2_eq (db : List Product) (store_id : String)
    (product_name : String) (product_id : String) (current_price : ℚ)
    (category : Option String) (limit : ℕ) :
    get_similar_products_v2 db store_id product_name product_id current_price category limit =
      (((collectCandidates
            (buildSearchTerms (parse_product_attributes product_name) product_name)
            [product_id] (db.filter (fun p => p.store_id = store_id))).filterMap
          (scoreCandidate (parse_product_attributes product_name) product_name
            current_price)).insertionSort candLe).take limit :=
  rfl

theorem calculate_similarity_score_eq (a1 a2 : ProductAttributes) (n1 n2 : String) :
    calculate_similarity_score a1 a2 n1 n2 =
      match scoreBase (firstWord (normalize_text n1)) (firstWord (normalize_text n2))
          a1.product_type a2.product_type
          (wordSet (normalize_text n1)) (wordSet (normalize_text n2)) with
      | none => 0
      | some b =>
        min (b + brandScore a1.brand a2.brand
               + vwScore a1.volume_ml a2.volume_ml a1.weight_g a2.weight_g
               + fatScore a1.fat_percent a2.fat_percent
               + jacScore (wordSet (normalize_text n1)) (wordSet (normalize_text n2))) 100 :=
  rfl

theorem firstWordBranch_cases {fw1 fw2 : String} {s : Int}
    (h : firstWordBranch fw1 fw2 = some s) : s = 35 ∨ s = 30 ∨ s = 25 := by
  unfold firstWordBranch at h
  split_ifs at h <;> simp_all

theorem typeBranch_cases {t1 t2 : Option String} {s : Int}
    (h : typeBranch t1 t2 = some s) : s = 30 ∨ s = 25 := by
  unfold typeBranch at h
  rcases t1 with _ | s1
  · exact absurd h (by simp)
  rcases t2 with _ | s2
  · exact absurd h (by simp)
  simp only [] at h
  split_ifs at h
  · exact Or.inl (Option.some.inj h).symm
  · exact Or.inr (Option.some.inj h).symm

theorem scoreBase_cases {fw1 fw2 : String} {t1 t2 : Option String}
    {w1 w2 : Finset String} {b : Int}
    (h : scoreBase fw1 fw2 t1 t2 w1 w2 = some b) :
    b = 35 ∨ b = 30 ∨ b = 25 ∨ b = 20 := by
  unfold scoreBase at h
  rcases h1 : firstWordBranch fw1 fw2 with _ | s
  · simp only [h1] at h
    rcases h2 : typeBranch t1 t2 with _ | s
    · simp only [h2] at h
      split_ifs at h
      · exact Or.inr (Or.inr (Or.inr (Option.some.inj h).symm))
    · simp only [h2] at h
      have hb : s = b := Option.some.inj h
      rcases typeBranch_cases h2 with h3 | h3 <;> omega
  · simp only [h1] at h
    have hb : s = b := Option.some.inj h
    rcases firstWordBranch_cases h1 with h3 | h3 | h3 <;> omega

theorem brandScore_nonneg (b1 b2 : Option String) : 0 ≤ brandScore b1 b2 := by
  unfold brandScore; split_ifs <;> norm_num

theorem ratioScore_nonneg (a b : ℚ) : 0 ≤ ratioScore a b := by
  unfold ratioScore; split_ifs <;> norm_num

theorem vwScore_nonneg (v1 v2 w1 w2 : Option ℚ) : 0 ≤ vwScore v1 v2 w1 w2 := by
  unfold vwScore
  split_ifs <;> first | apply ratioScore_nonneg | norm_num

theorem fatScore_nonneg (f1 f2 : Option ℚ) : 0 ≤ fatScore f1 f2 := by
  unfold fatScore; split_ifs <;> norm_num

theorem jacScore_nonneg (w1 w2 : Finset String) : 0 ≤ jacScore w1 w2 := by
  unfold jacScore
  split_ifs <;> first | exact Int.natCast_nonneg _ | norm_num

theorem firstWordBranch_symm (fw1 fw2 : String) :
    firstWordBranch fw1 fw2 = firstWordBranch fw2 fw1 := by
  by_cases h1 : fw1 = fw2
  · subst h1; rfl
  · by_cases hs : stem_russian fw1 = stem_russian fw2 <;>
    by_cases he1 : fw1.data.isEmpty = true <;>
    by_cases he2 : fw2.data.isEmpty = true <;>
    by_cases hc1 : strContains fw2 fw1 = true <;>
    by_cases hc2 : strContains fw1 fw2 = true <;>
    first
      | (simp [firstWordBranch, h1, Ne.symm h1, hs, he1, he2, hc1, hc2]; done)
      | (simp [firstWordBranch, h1, Ne.symm h1, hs, Ne.symm hs, he1, he2, hc1, hc2]; done)

theorem typeBranch_symm (t1 t2 : Option String) :
    typeBranch t1 t2 = typeBranch t2 t1 := by
  rcases t1 with _ | s1 <;> rcases t2 with _ | s2
  · rfl
  · rfl
  · rfl
  by_cases h1 : s1 = s2
  · subst h1; rfl
  · by_cases hs : stem_russian s1 = stem_russian s2 <;>
    by_cases he1 : s1.data.isEmpty = true <;>
    by_cases he2 : s2.data.isEmpty = true <;>
    first
      | (simp [typeBranch, h1, Ne.symm h1, hs, he1, he2]; done)
      | (simp [typeBranch, h1, Ne.symm h1, hs, Ne.symm hs, he1, he2]; done)

theorem brandScore_symm (b1 b2 : Option String) :
    brandScore b1 b2 = brandScore b2 b1 := by
  by_cases hb1 : truthyS b1 = true <;> by_cases hb2 : truthyS b2 = true <;>
  by_cases heq : pyLowerStr (b1.getD "") = pyLowerStr (b2.getD "") <;>
  first
    | (simp [brandScore, hb1, hb2, heq]; done)
    | (simp [brandScore, hb1, hb2, heq, Ne.symm heq]; done)

theorem ratioScore_symm (a b : ℚ) : ratioScore a b = ratioScore b a := by
  unfold ratioScore
  rw [min_comm, max_comm]

theorem vwScore_symm (v1 v2 w1 w2 : Option ℚ) :
    vwScore v1 v2 w1 w2 = vwScore v2 v1 w2 w1 := by
  by_cases tv1 : truthyQ v1 = true <;> by_cases tv2 : truthyQ v2 = true <;>
  by_cases tw1 : truthyQ w1 = true <;> by_cases tw2 : truthyQ w2 = true <;>
  simp [vwScore, tv1, tv2, tw1, tw2, ratioScore_symm]

theorem fatScore_symm (f1 f2 : Option ℚ) : fatScore f1 f2 = fatScore f2 f1 := by
  by_cases tf1 : truthyQ f1 = true <;> by_cases tf2 : truthyQ f2 = true <;>
  simp [fatScore, tf1, tf2, abs_sub_comm]

theorem jacScore_symm (w1 w2 : Finset String) : jacScore w1 w2 = jacScore w2 w1 := by
  unfold jacScore
  rw [Finset.inter_comm, Finset.union_comm]
  by_cases h : w1.Nonempty ∧ w2.Nonempty
  · rw [if_pos h, if_pos (And.symm h)]
  · rw [if_neg h, if_neg (fun hc => h (And.symm hc))]

theorem scoreBase_symm (fw1 fw2 : String) (t1 t2 : Option String)
    (w1 w2 : Finset String) :
    scoreBase fw1 fw2 t1 t2 w1 w2 = scoreBase fw2 fw1 t2 t1 w2 w1 := by
  unfold scoreBase
  rw [firstWordBranch_symm, typeBranch_symm, Finset.inter_comm]

/-!
### Claims about the similarity scorer
-/

/-- Claim C2: for every pair of attribute records and every pair of name
strings, the integer returned by `calculate_similarity_score` is at least
0 and at most 100. -/
theorem c2_score_clamped (a1 a2 : ProductAttributes) (n1 n2 : String) :
    0 ≤ calculate_similarity_score a1 a2 n1 n2 ∧
      calculate_similarity_score a1 a2 n1 n2 ≤ 100 := by
  rw [calculate_similarity_score_eq]
  rcases hb : scoreBase (firstWord (normalize_text n1)) (firstWord (normalize_text n2))
      a1.product_type a2.product_type
      (wordSet (normalize_text n1)) (wordSet (normalize_text n2)) with _ | b
  · exact ⟨le_refl 0, by norm_num⟩
  · have hb0 : (0 : Int) ≤ b := by
      rcases scoreBase_cases hb with h | h | h | h <;> simp [h]
    constructor
    · refine le_min ?_ (by norm_num)
      have h1 := brandScore_nonneg a1.brand a2.brand
      have h2 := vwScore_nonneg a1.volume_ml a2.volume_ml a1.weight_g a2.weight_g
      have h3 := fatScore_nonneg a1.fat_percent a2.fat_percent
      have h4 := jacScore_nonneg (wordSet (normalize_text n1)) (wordSet (normalize_text n2))
      omega
    · exact min_le_right _ _

/-- Claim C3: similarity scoring is symmetric in its two products. -/
theorem c3_score_symm (a1 a2 : ProductAttributes) (n1 n2 : String) :
    calculate_similarity_score a1 a2 n1 n2 = calculate_similarity_score a2 a1 n2 n1 := by
  rw [calculate_similarity_score_eq, calculate_similarity_score_eq]
  rw [scoreBase_symm, brandScore_symm, vwScore_symm, fatScore_symm, jacScore_symm]

/-- Claim C10: the pack-quantity attribute never influences similarity;
records differing only in their `quantity` fields yield the same score. -/
theorem c10_quantity_irrelevant (a1 a2 : ProductAttributes) (q1 q2 : Option ℤ)
    (n1 n2 : String) :
    calculate_similarity_score { a1 with quantity := q1 } { a2 with quantity := q2 } n1 n2 =
      calculate_similarity_score a1 a2 n1 n2 :=
  rfl

/-- Claim C1: when the first words of the two normalized names are
neither equal, nor stem-equal, nor related by substring containment, the
product-type fields (when both present) are neither equal nor stem-equal,
and the filtered word sets share fewer than 2 words, the score is exactly
0. -/
theorem c1_gate_short_circuit (a1 a2 : ProductAttributes) (n1 n2 : String)
    (hne : firstWord (normalize_text n1) ≠ firstWord (normalize_text n2))
    (hstem : stem_russian (firstWord (normalize_text n1)) ≠
      stem_russian (firstWord (normalize_text n2)))
    (hsub1 : strContains (firstWord (normalize_text n2)) (firstWord (normalize_text n1)) = false)
    (hsub2 : strContains (firstWord (normalize_text n1)) (firstWord (normalize_text n2)) = false)
    (htype : ∀ s1 s2, a1.product_type = some s1 → a2.product_type = some s2 →
      s1 ≠ s2 ∧ stem_russian s1 ≠ stem_russian s2)
    (hwords : (wordSet (normalize_text n1) ∩ wordSet (normalize_text n2)).card < 2) :
    calculate_similarity_score a1 a2 n1 n2 = 0 := by
  rw [calculate_similarity_score_eq]
  have hfwb : firstWordBranch (firstWord (normalize_text n1))
      (firstWord (normalize_text n2)) = none := by
    unfold firstWordBranch
    simp [hne, hstem, hsub1, hsub2]
  have htb : typeBranch a1.product_type a2.product_type = none := by
    rcases ht1 : a1.product_type with _ | s1
    · rfl
    rcases ht2 : a2.product_type with _ | s2
    · rfl
    have hd := htype s1 s2 ht1 ht2
    unfold typeBranch
    simp [hd.1, hd.2]
  have hbase : scoreBase (firstWord (normalize_text n1)) (firstWord (normalize_text n2))
      a1.product_type a2.product_type
      (wordSet (normalize_text n1)) (wordSet (normalize_text n2)) = none := by
    unfold scoreBase
    simp only [hfwb, htb]
    rw [if_neg (by omega)]
  rw [hbase]

/-- Witness for C1 at a concrete cross-type pair. -/
theorem c1_gate_short_circuit_witness :
    calculate_similarity_score {} {} "хлеб" "вино" = 0 :=
  c1_gate_short_circuit {} {} "хлеб" "вино" (by decide) (by decide) (by decide) (by decide)
    (fun _ _ h _ => nomatch h) (by decide)

/-- Claim C8: volume parsing yields 930.0 for "930мл", 1000.0 for "1л",
1500.0 for "1.5л"; weight parsing yields 200.0 for "200г" and 1000.0 for
"1кг" (liter and kilogram quantities multiplied by 1000). -/
theorem c8_volume_weight_examples :
    (parse_product_attributes "930мл").volume_ml = some 930 ∧
    (parse_product_attributes "1л").volume_ml = some 1000 ∧
    (parse_product_attributes "1.5л").volume_ml = some 1500 ∧
    (parse_product_attributes "200г").weight_g = some 200 ∧
    (parse_product_attributes "1кг").weight_g = some 1000 := by
  refine ⟨?_, ?_, ?_, ?_, ?_⟩ <;> decide

/-!
### Claims about search and match finding
-/

/-- Claim C9: a query shorter than 2 characters (including the empty
query), or a query no product of the catalog matches (every per-product
relevance score is 0), makes `smart_search` return the empty list. -/
theorem c9_short_or_no_match_empty (db : List Product) (store_id : String)
    (query : String) (category : Option String) (limit : ℕ)
    (h : query.length < 2 ∨
      ∀ p ∈ db, smartScore (normalize_text query) (smartTokens query) p = 0) :
    smart_search db store_id query category limit = [] := by
  unfold smart_search
  by_cases hq : query.length < 2
  · rw [if_pos hq]
  · rcases h with h | h
    · exact absurd h hq
    · rw [if_neg hq]
      by_cases ht : (smartTokens query).isEmpty = true
      · rw [if_pos ht]
      · rw [if_neg ht]
        have hfm : (searchCatalog db store_id category).filterMap (fun p =>
            let s := smartScore (normalize_text query) (smartTokens query) p
            if 0 < s then some (p, s) else none) = [] := by
          rw [List.filterMap_eq_nil]
          intro p hp
          have hpdb : p ∈ db := by
            unfold searchCatalog at hp
            split_ifs at hp
            · exact (List.mem_filter.mp (List.mem_filter.mp hp).1).1
            · exact (List.mem_filter.mp hp).1
          simp only [h p hpdb]
          rfl
        rw [hfm]
        simp

/-- Witness for C9: a one-character query, and a two-character query that
matches nothing in a one-product catalog. -/
theorem c9_short_or_no_match_empty_witness :
    smart_search fixtureDbBread "magnit" "я" none 500 = [] ∧
    smart_search fixtureDbBread "magnit" "яя" none 500 = [] :=
  ⟨c9_short_or_no_match_empty fixtureDbBread "magnit" "я" none 500 (Or.inl (by decide)),
   c9_short_or_no_match_empty fixtureDbBread "magnit" "яя" none 500 (Or.inr (by decide))⟩

/-- Claim C5 (amended): for every candidate record returned by
`get_similar_products_v2`, the price difference equals the candidate's
price minus the source price when the source price is nonzero and is 0
when the source price is 0 (Python falsy), `is_cheaper` holds iff the
stored price difference is below -0.01, and `is_exact_match` holds iff
the similarity score is at least 70. -/
theorem c5_candidate_fields (db : List Product) (store_id : String)
    (product_name : String) (product_id : String) (current_price : ℚ)
    (category : Option String) (limit : ℕ) (e : ScoredCandidate)
    (he : e ∈ get_similar_products_v2 db store_id product_name product_id
      current_price category limit) :
    e.price_diff =
      (if current_price ≠ 0 then e.product.current_price - current_price else 0) ∧
    (e.is_cheaper = true ↔ e.price_diff < -(1 / 100)) ∧
    (e.is_exact_match = true ↔ 70 ≤ e.similarity_score) := by
  rw [get_similar_products_v2_eq] at he
  have he2 := (List.perm_insertionSort candLe _).mem_iff.mp (List.take_subset _ _ he)
  rw [List.mem_filterMap] at he2
  obtain ⟨cand, _, hsc⟩ := he2
  unfold scoreCandidate at hsc
  split_ifs at hsc with h20
  have he3 := Option.some.inj hsc
  subst he3
  refine ⟨?_, ?_, ?_⟩
  · unfold candPriceDiff candPrice
    by_cases hc : cand.current_price = 0 <;> by_cases hp : current_price = 0 <;>
      simp [hc, hp]
  · exact decide_eq_true_iff
  · exact decide_eq_true_iff

/-- Witness for C5 (amended) at a concrete catalog: the single candidate
record of `fixtureDbMilk` satisfies all three field laws. -/
theorem c5_candidate_fields_witness :
    fixtureMilkEntry.price_diff =
      (if (7 : ℚ) ≠ 0 then fixtureMilkEntry.product.current_price - 7 else 0) ∧
    (fixtureMilkEntry.is_cheaper = true ↔ fixtureMilkEntry.price_diff < -(1 / 100)) ∧
    (fixtureMilkEntry.is_exact_match = true ↔ 70 ≤ fixtureMilkEntry.similarity_score) :=
  c5_candidate_fields fixtureDbMilk "magnit" "молоко 1л" "src" 7 none 6
    fixtureMilkEntry (by decide)

/-- Counterexample to C5 as stated: with a source price of 0 (falsy), the
stored price difference is 0 although the candidate's price is 5, so it
does not equal candidate price minus source price. -/
theorem c5_counterexample :
    (get_similar_products_v2 fixtureDbMilk "magnit" "молоко 1л" "src" 0 none 6).map
        (fun e => (e.product.current_price, e.price_diff)) = [(5, 0)] ∧
      (0 : ℚ) ≠ 5 - 0 := by
  constructor
  · decide
  · norm_num

/-- Claim C6: `find_exact_match_cross_store` returns none whenever every
candidate of the cross-store search (hence in particular the best one)
scores below 60, and any returned match scores at least 60. -/
theorem c6_cross_store_floor (db : List Product) (product_name : String)
    (product_id : String) (source_store : String) (current_price : ℚ) :
    ((∀ c ∈ get_similar_products_v2 db (otherStore source_store) product_name
        product_id current_price none 1, c.similarity_score < 60) →
      find_exact_match_cross_store db product_name product_id source_store
        current_price = none) ∧
    (∀ m, find_exact_match_cross_store db product_name product_id source_store
        current_price = some m → 60 ≤ m.similarity_score) := by
  constructor
  · intro hall
    unfold find_exact_match_cross_store
    rcases hv : get_similar_products_v2 db (otherStore source_store) product_name
        product_id current_price none 1 with _ | ⟨s, rest⟩
    · rfl
    · have hs := hall s (by rw [hv]; exact List.mem_cons_self s rest)
      show (if 60 ≤ s.similarity_score then some s else none) = none
      rw [if_neg (by omega)]
  · intro m hm
    unfold find_exact_match_cross_store at hm
    rcases hv : get_similar_products_v2 db (otherStore source_store) product_name
        product_id current_price none 1 with _ | ⟨s, rest⟩
    · rw [hv] at hm
      exact absurd hm (by simp)
    · rw [hv] at hm
      dsimp only at hm
      split_ifs at hm with h60
      rw [← Option.some.inj hm]
      exact h60

/-- Witness for C6: a catalog whose only cross-store candidate scores 45,
so the exact-match search returns none. -/
theorem c6_cross_store_floor_witness :
    find_exact_match_cross_store fixtureDbCross "молоко Aaa 1л" "src" "magnit" 50 = none :=
  (c6_cross_store_floor fixtureDbCross "молоко Aaa 1л" "src" "magnit" 50).1 (by decide)

/-!
### Exception freedom (claim C4)

The matched numeric groups always have the shape `digits` or
`digits sep digits`, so the `float`/`int` conversions never fail; the
normalized name is never a nonempty all-whitespace string, so the
first-word index never fails; and the ratio division is guarded by the
truthiness of both operands, so the divisor is never zero.
-/

theorem takeWhile_app_all {p : Char → Bool} {l r : List Char}
    (hl : ∀ c ∈ l, p c = true) : (l ++ r).takeWhile p = l ++ r.takeWhile p := by
  induction l with
  | nil => simp
  | cons c cs ih =>
    simp [List.takeWhile_cons, hl c (by simp), ih (fun d hd => hl d (by simp [hd]))]

theorem dropWhile_app_all {p : Char → Bool} {l r : List Char}
    (hl : ∀ c ∈ l, p c = true) : (l ++ r).dropWhile p = r.dropWhile p := by
  induction l with
  | nil => simp
  | cons c cs ih =>
    simp [List.dropWhile_cons, hl c (by simp), ih (fun d hd => hl d (by simp [hd]))]

theorem matchNumber_shape {l : List Char} {nm : NumMatch}
    (h : matchNumber l = some nm) :
    nm.ip ≠ [] ∧ (∀ c ∈ nm.ip, isDigit c = true) ∧
      ∀ s ds, nm.frac = some (s, ds) →
        (s = '.' ∨ s = ',') ∧ ds ≠ [] ∧ ∀ c ∈ ds, isDigit c = true := by
  rcases l with _ | ⟨c, cs⟩
  · exact absurd h (by simp [matchNumber])
  simp only [matchNumber] at h
  by_cases hc : isDigit c = true
  · rw [if_pos hc] at h
    have hip : ∀ d ∈ c :: cs.takeWhile isDigit, isDigit d = true := by
      intro d hd
      rcases List.mem_cons.mp hd with hd | hd
      · rw [hd]; exact hc
      · exact List.mem_takeWhile_imp hd
    rcases hcd : cs.dropWhile isDigit with _ | ⟨s, r⟩
    · rw [hcd] at h
      have := Option.some.inj h
      rw [← this]
      exact ⟨by simp, hip, by simp⟩
    rcases r with _ | ⟨d, r2⟩
    · rw [hcd] at h
      have := Option.some.inj h
      rw [← this]
      exact ⟨by simp, hip, by simp⟩
    · rw [hcd] at h
      dsimp only at h
      split_ifs at h with hsd
      · have := Option.some.inj h
        rw [← this]
        refine ⟨by simp, hip, ?_⟩
        intro s' ds' hfr
        have hfr2 := Option.some.inj hfr
        have hs2 : s' = s := congrArg Prod.fst hfr2.symm
        have hds2 : ds' = d :: r2.takeWhile isDigit := congrArg Prod.snd hfr2.symm
        rw [hs2, hds2]
        have hsd2 : (s = '.' ∨ s = ',') ∧ isDigit d = true := by simpa using hsd
        refine ⟨hsd2.1, by simp, ?_⟩
        intro e he
        rcases List.mem_cons.mp he with he | he
        · rw [he]; exact hsd2.2
        · exact List.mem_takeWhile_imp he
      · have := Option.some.inj h
        rw [← this]
        exact ⟨by simp, hip, by simp⟩
  · rw [if_neg hc] at h
    exact absurd h (by simp)

theorem pyFloat_digits {ip : List Char} (h1 : ip ≠ [])
    (h2 : ∀ c ∈ ip, isDigit c = true) :
    pyFloat ip = some ((digitsVal ip : ℚ)) := by
  rcases ip with _ | ⟨c, cs⟩
  · exact absurd rfl h1
  have htw : cs.takeWhile isDigit = cs :=
    List.takeWhile_eq_self_iff.mpr (fun d hd => h2 d (by simp [hd]))
  have hdw : cs.dropWhile isDigit = [] :=
    List.dropWhile_eq_nil_iff.mpr (fun d hd => h2 d (by simp [hd]))
  simp only [pyFloat, if_pos (h2 c (by simp)), htw, hdw]

theorem pyFloat_digits_frac {ip ds : List Char} (h1 : ip ≠ [])
    (h2 : ∀ c ∈ ip, isDigit c = true) (h3 : ds ≠ [])
    (h4 : ∀ c ∈ ds, isDigit c = true) :
    pyFloat (ip ++ '.' :: ds) =
      some ((digitsVal ip : ℚ) + (digitsVal ds : ℚ) / 10 ^ ds.length) := by
  rcases ip with _ | ⟨c, cs⟩
  · exact absurd rfl h1
  have hcs : ∀ d ∈ cs, isDigit d = true := fun d hd => h2 d (by simp [hd])
  have htw : ('.' :: ds).takeWhile isDigit = [] := by
    simp [List.takeWhile_cons, isDigit]
  have hdw : ('.' :: ds).dropWhile isDigit = '.' :: ds := by
    simp [List.dropWhile_cons, isDigit]
  have hne : ds.isEmpty = false := by
    rcases ds with _ | _
    · exact absurd rfl h3
    · rfl
  have hall : ds.all isDigit = true := List.all_eq_true.mpr h4
  simp only [pyFloat, List.cons_append, if_pos (h2 c (by simp)),
    takeWhile_app_all hcs, dropWhile_app_all hcs, htw, hdw, List.append_nil,
    hne, hall, Bool.not_false, Bool.and_self, if_true]

theorem replComma_digits {l : List Char} (h : ∀ c ∈ l, isDigit c = true) :
    replComma l = l := by
  induction l with
  | nil => rfl
  | cons c cs ih =>
    have hc : c ≠ ',' := by
      intro hc
      have hd := h c (by simp)
      rw [hc] at hd
      exact absurd hd (by decide)
    have ihc := ih (fun d hd => h d (by simp [hd]))
    simp only [replComma, List.map_cons, if_neg hc, List.cons.injEq, true_and]
    exact ihc

theorem floatE_numGroup {l : List Char} {nm : NumMatch}
    (h : matchNumber l = some nm) :
    floatE (numGroup nm) = Except.ok (floatOfGroup (numGroup nm)) := by
  obtain ⟨hip, hipd, hfr⟩ := matchNumber_shape h
  have hsome : ∃ v, pyFloat (replComma (numGroup nm)) = some v := by
    rcases hnf : nm.frac with _ | ⟨s, ds⟩
    · unfold numGroup
      rw [hnf]
      unfold fracRender
      rw [List.append_nil, replComma_digits hipd]
      exact ⟨_, pyFloat_digits hip hipd⟩
    · obtain ⟨hs, hds, hdsd⟩ := hfr s ds hnf
      unfold numGroup
      rw [hnf]
      unfold fracRender
      have hrc : replComma (nm.ip ++ s :: ds) = nm.ip ++ '.' :: ds := by
        have h1 : replComma (nm.ip ++ s :: ds) =
            replComma nm.ip ++ (if s = ',' then '.' else s) :: replComma ds := by
          simp [replComma]
        rw [h1, replComma_digits hipd, replComma_digits hdsd]
        rcases hs with hs | hs <;> simp [hs]
      rw [hrc]
      exact ⟨_, pyFloat_digits_frac hip hipd hds hdsd⟩
  obtain ⟨v, hv⟩ := hsome
  unfold floatE floatOfGroup
  rw [hv]
  rfl

theorem searchNumUnit_floatE {u : List Char → Bool} {l g : List Char}
    (h : searchNumUnit u l = some g) :
    floatE g = Except.ok (floatOfGroup g) := by
  induction l with
  | nil => exact absurd h (by simp [searchNumUnit])
  | cons c cs ih =>
    unfold searchNumUnit at h
    rcases hmn : matchNumber (c :: cs) with _ | nm
    · rw [hmn] at h
      exact ih h
    · rw [hmn] at h
      dsimp only at h
      split_ifs at h
      · rw [← Option.some.inj h]
        exact floatE_numGroup hmn
      · exact ih h

theorem searchQty_intE {l ds : List Char} (h : searchQty l = some ds) :
    intE ds = Except.ok ((pyInt ds).getD 0) := by
  have hshape : ds ≠ [] ∧ ∀ c ∈ ds, isDigit c = true := by
    induction l with
    | nil => exact absurd h (by simp [searchQty])
    | cons c cs ih =>
      unfold searchQty at h
      split_ifs at h with h1 h2
      · have hd : isDigit c = true := by
          have h1b := h1
          simp only [Bool.and_eq_true] at h1b
          exact h1b.1
        rw [← Option.some.inj h]
        refine ⟨by simp, ?_⟩
        intro d hd2
        rcases List.mem_cons.mp hd2 with hd2 | hd2
        · rw [hd2]; exact hd
        · exact List.mem_takeWhile_imp hd2
      · rcases cs with _ | ⟨d, rest⟩
        · exact absurd h (by simp)
        · dsimp only at h
          split_ifs at h with h3
          · rw [← Option.some.inj h]
            refine ⟨by simp, ?_⟩
            intro e he
            rcases List.mem_cons.mp he with he | he
            · rw [he]; exact h3
            · exact List.mem_takeWhile_imp he
          · exact ih h
      · exact ih h
  have hp : pyInt ds = some ((digitsVal ds : ℤ)) := by
    unfold pyInt
    have h1 : ds.isEmpty = false := by
      rcases hds : ds with _ | _
      · exact absurd hds hshape.1
      · rfl
    rw [h1, List.all_eq_true.mpr hshape.2]
    rfl
  unfold intE
  rw [hp]
  rfl

theorem parseVolumeE_ok (nl : List Char) :
    parseVolumeE nl = Except.ok (parseVolume nl) := by
  unfold parseVolumeE parseVolume
  rcases h1 : searchNumUnit unitMl nl with _ | g1
  · rcases h2 : searchNumUnit unitL nl with _ | g2
    · rfl
    · dsimp only
      rw [searchNumUnit_floatE h2]
      rfl
  · dsimp only
    rw [searchNumUnit_floatE h1]
    rfl

theorem parseWeightE_ok (nl : List Char) :
    parseWeightE nl = Except.ok (parseWeight nl) := by
  unfold parseWeightE parseWeight
  rcases h1 : searchNumUnit unitG nl with _ | g1
  · rcases h2 : searchNumUnit unitKg nl with _ | g2
    · rfl
    · dsimp only
      rw [searchNumUnit_floatE h2]
      rfl
  · dsimp only
    rw [searchNumUnit_floatE h1]
    rfl

theorem parseFatE_ok (nl : List Char) :
    parseFatE nl = Except.ok (parseFat nl) := by
  unfold parseFatE parseFat
  rcases h1 : searchNumUnit unitPct nl with _ | g1
  · rfl
  · dsimp only
    rw [searchNumUnit_floatE h1]
    rfl

theorem parseQtyE_ok (nl : List Char) :
    parseQtyE nl = Except.ok (parseQty nl) := by
  unfold parseQtyE parseQty
  rcases h1 : searchQty nl with _ | ds
  · rfl
  · dsimp only
    rw [searchQty_intE h1]
    rfl

theorem parseE_ok (name : String) :
    parse_product_attributesE name = Except.ok (parse_product_attributes name) := by
  unfold parse_product_attributesE parse_product_attributes
  rw [parseVolumeE_ok, parseWeightE_ok, parseFatE_ok, parseQtyE_ok]
  rfl

theorem splitRuns_cons_eq (p : Char → Bool) (c : Char) (cs : List Char) :
    splitRuns p (c :: cs) =
      if p c then
        match cs, splitRuns p cs with
        | d :: _, w :: ws => if p d then (c :: w) :: ws else [c] :: w :: ws
        | _, r => [c] :: r
      else splitRuns p cs :=
  rfl

theorem splitRuns_head {p : Char → Bool} {l w : List Char} {ws : List (List Char)}
    (h : splitRuns p l = w :: ws) : ∃ c cs, w = c :: cs ∧ p c = true := by
  induction l generalizing w ws with
  | nil => exact absurd h (by intro hx; cases hx)
  | cons c cs ih =>
    rw [splitRuns_cons_eq] at h
    by_cases hc : p c = true
    · rw [if_pos hc] at h
      rcases cs with _ | ⟨d, cs'⟩
      · dsimp only at h
        injection h with h1 _
        exact ⟨c, [], h1.symm, hc⟩
      · rcases hr : splitRuns p (d :: cs') with _ | ⟨w0, ws0⟩
        · rw [hr] at h
          dsimp only at h
          injection h with h1 _
          exact ⟨c, [], h1.symm, hc⟩
        · rw [hr] at h
          dsimp only at h
          by_cases hd : p d = true
          · rw [if_pos hd] at h
            injection h with h1 _
            exact ⟨c, w0, h1.symm, hc⟩
          · rw [if_neg hd] at h
            injection h with h1 _
            exact ⟨c, [], h1.symm, hc⟩
    · rw [if_neg hc] at h
      exact ih h

theorem splitRuns_cons_ne {p : Char → Bool} {c : Char} {t : List Char}
    (hc : p c = true) : splitRuns p (c :: t) ≠ [] := by
  rw [splitRuns_cons_eq, if_pos hc]
  rcases t with _ | ⟨d, t'⟩
  · simp
  · rcases splitRuns p (d :: t') with _ | ⟨w, ws⟩
    · simp
    · by_cases hd : p d = true <;> simp [hd]

theorem normalize_firstWordE (s : String) :
    firstWordE (normalize_text s) = Except.ok (firstWord (normalize_text s)) := by
  unfold firstWordE firstWord
  by_cases he : (normalize_text s).data.isEmpty = true
  · rw [if_pos he]
    have hd : (normalize_text s).data = [] := by
      rcases hx : (normalize_text s).data with _ | _
      · rfl
      · rw [hx] at he
        exact absurd he (by simp)
    rw [hd]
    rfl
  · rw [if_neg he]
    have hne : (normalize_text s).data ≠ [] := by
      intro hx
      rw [hx] at he
      exact he rfl
    have hhead : ∃ c t, (normalize_text s).data = c :: t ∧ (!isWs c) = true := by
      have hdata : (normalize_text s).data = normalizeList s.data := rfl
      rw [hdata] at hne ⊢
      unfold normalizeList at hne ⊢
      rcases hr : splitRuns (fun c => !isWs c)
          ((pyLower s.data).map (fun c => if c = 'ё' then 'е' else c)) with _ | ⟨w, ws⟩
      · rw [hr] at hne
        exact absurd rfl hne
      · obtain ⟨c, cs', hw, hc⟩ := splitRuns_head hr
        rw [hw]
        rcases ws with _ | ⟨w2, ws2⟩
        · exact ⟨c, cs', rfl, hc⟩
        · exact ⟨c, cs' ++ ' ' :: joinSpace (w2 :: ws2), rfl, hc⟩
    obtain ⟨c, t, hdata, hc⟩ := hhead
    rw [hdata]
    rcases hsr : splitRuns (fun c => !isWs c) (c :: t) with _ | ⟨w, ws⟩
    · exact absurd hsr (splitRuns_cons_ne hc)
    · rfl

theorem max_ne_zero {a b : ℚ} (ha : a ≠ 0) (hb : b ≠ 0) : max a b ≠ 0 := by
  rcases lt_trichotomy a 0 with h | h | h
  · rcases lt_trichotomy b 0 with h2 | h2 | h2
    · exact ne_of_lt (max_lt h h2)
    · exact absurd h2 hb
    · exact ne_of_gt (lt_max_of_lt_right h2)
  · exact absurd h ha
  · exact ne_of_gt (lt_max_of_lt_left h)

theorem truthyQ_getD_ne {o : Option ℚ} (h : truthyQ o = true) : o.getD 0 ≠ 0 := by
  rcases o with _ | x
  · exact absurd h (by simp [truthyQ])
  · simpa [truthyQ] using h

theorem ratioScoreE_ok {a b : ℚ} (ha : a ≠ 0) (hb : b ≠ 0) :
    ratioScoreE a b = Except.ok (ratioScore a b) := by
  unfold ratioScoreE
  rw [if_neg (max_ne_zero ha hb)]
  rfl

theorem scoreE_ok (a1 a2 : ProductAttributes) (n1 n2 : String) :
    calculate_similarity_scoreE a1 a2 n1 n2 =
      Except.ok (calculate_similarity_score a1 a2 n1 n2) := by
  unfold calculate_similarity_scoreE
  rw [calculate_similarity_score_eq]
  dsimp only
  rw [normalize_firstWordE n1, normalize_firstWordE n2]
  simp only [bind, Except.bind]
  rcases hb : scoreBase (firstWord (normalize_text n1)) (firstWord (normalize_text n2))
      a1.product_type a2.product_type
      (wordSet (normalize_text n1)) (wordSet (normalize_text n2)) with _ | b
  · rfl
  · dsimp only
    unfold vwScore
    by_cases hv : (truthyQ a1.volume_ml && truthyQ a2.volume_ml) = true
    · have hv2 : truthyQ a1.volume_ml = true ∧ truthyQ a2.volume_ml = true := by
        simpa using hv
      rw [if_pos hv, if_pos hv,
        ratioScoreE_ok (truthyQ_getD_ne hv2.1) (truthyQ_getD_ne hv2.2)]
      rfl
    · rw [if_neg hv, if_neg hv]
      by_cases hw : (truthyQ a1.weight_g && truthyQ a2.weight_g) = true
      · have hw2 : truthyQ a1.weight_g = true ∧ truthyQ a2.weight_g = true := by
          simpa using hw
        rw [if_pos hw, if_pos hw,
          ratioScoreE_ok (truthyQ_getD_ne hw2.1) (truthyQ_getD_ne hw2.2)]
        rfl
      · rw [if_neg hw, if_neg hw]
        rfl

/-- Claim C4: `parse_product_attributes` and `calculate_similarity_score`
terminate normally on every input and never raise: the exception-aware
variants, which return `Except.error` exactly at the Python failure
points (`float`/`int` conversion, the first-word index, the ratio
division), always return `Except.ok` of the total functions' values.  A
malformed numeric fragment never reaches a conversion because the
patterns only match well-formed groups, so the attribute is simply
absent. -/
theorem c4_no_exceptions (name : String) (a1 a2 : ProductAttributes) (n1 n2 : String) :
    parse_product_attributesE name = Except.ok (parse_product_attributes name) ∧
    calculate_similarity_scoreE a1 a2 n1 n2 =
      Except.ok (calculate_similarity_score a1 a2 n1 n2) :=
  ⟨parseE_ok name, scoreE_ok a1 a2 n1 n2⟩

/-!
### Characterization of fat-percentage extraction (claim C7)
-/

theorem floatOfGroup_val {l : List Char} {nm : NumMatch}
    (h : matchNumber l = some nm) :
    floatOfGroup (numGroup nm) = specDecimalVal nm.ip nm.frac := by
  obtain ⟨hip, hipd, hfr⟩ := matchNumber_shape h
  rcases hnf : nm.frac with _ | ⟨s, ds⟩
  · unfold floatOfGroup numGroup
    rw [hnf]
    unfold fracRender
    rw [List.append_nil, replComma_digits hipd, pyFloat_digits hip hipd]
    unfold specDecimalVal
    simp
  · obtain ⟨hs, hds, hdsd⟩ := hfr s ds hnf
    unfold floatOfGroup numGroup
    rw [hnf]
    unfold fracRender
    have hrc : replComma (nm.ip ++ s :: ds) = nm.ip ++ '.' :: ds := by
      have h1 : replComma (nm.ip ++ s :: ds) =
          replComma nm.ip ++ (if s = ',' then '.' else s) :: replComma ds := by
        simp [replComma]
      rw [h1, replComma_digits hipd, replComma_digits hdsd]
      rcases hs with hs | hs <;> simp [hs]
    rw [hrc, pyFloat_digits_frac hip hipd hds hdsd]
    unfold specDecimalVal
    simp

theorem matchNumber_split {l : List Char} {nm : NumMatch}
    (h : matchNumber l = some nm) :
    l = nm.ip ++ fracRender nm.frac ++ nm.rest := by
  rcases l with _ | ⟨c, cs⟩
  · exact absurd h (by simp [matchNumber])
  simp only [matchNumber] at h
  by_cases hc : isDigit c = true
  · rw [if_pos hc] at h
    have hcs : cs = cs.takeWhile isDigit ++ cs.dropWhile isDigit :=
      (List.takeWhile_append_dropWhile isDigit cs).symm
    rcases hcd : cs.dropWhile isDigit with _ | ⟨s, r⟩
    · rw [hcd] at h hcs
      rw [← Option.some.inj h]
      unfold fracRender
      conv_lhs => rw [hcs]
      simp
    rcases r with _ | ⟨d, r2⟩
    · rw [hcd] at h hcs
      rw [← Option.some.inj h]
      unfold fracRender
      conv_lhs => rw [hcs]
      simp
    · rw [hcd] at h hcs
      dsimp only at h
      split_ifs at h with hsd
      · rw [← Option.some.inj h]
        unfold fracRender
        dsimp only
        conv_lhs =>
          rw [hcs, show r2 = r2.takeWhile isDigit ++ r2.dropWhile isDigit from
            (List.takeWhile_append_dropWhile isDigit r2).symm]
        simp
      · rw [← Option.some.inj h]
        unfold fracRender
        conv_lhs => rw [hcs]
        simp
  · rw [if_neg hc] at h
    exact absurd h (by simp)

theorem searchNumUnit_split {u : List Char → Bool} {l g : List Char}
    (h : searchNumUnit u l = some g) :
    ∃ A rest, l = A ++ rest ∧ ∃ nm, matchNumber rest = some nm ∧
      u (nm.rest.dropWhile isWs) = true ∧ g = numGroup nm := by
  induction l with
  | nil => exact absurd h (by simp [searchNumUnit])
  | cons c cs ih =>
    unfold searchNumUnit at h
    rcases hmn : matchNumber (c :: cs) with _ | nm
    · rw [hmn] at h
      obtain ⟨A, rest, hl, hrest⟩ := ih h
      exact ⟨c :: A, rest, by rw [hl]; rfl, hrest⟩
    · rw [hmn] at h
      dsimp only at h
      split_ifs at h with hu
      · exact ⟨[], c :: cs, rfl, nm, hmn, hu, (Option.some.inj h).symm⟩
      · obtain ⟨A, rest, hl, hrest⟩ := ih h
        exact ⟨c :: A, rest, by rw [hl]; rfl, hrest⟩

theorem unitPct_shape {r : List Char} (h : unitPct r = true) : ∃ B, r = '%' :: B := by
  rcases r with _ | ⟨c, t⟩
  · exact absurd h (by simp [unitPct])
  · have hc : c = '%' := by simpa [unitPct] using h
    exact ⟨t, by rw [hc]⟩

theorem isWs_not_isDigit {c : Char} (h : isWs c = true) : isDigit c = false := by
  have h2 := h
  simp only [isWs, Bool.or_eq_true, decide_eq_true_eq] at h2
  rcases h2 with ((((h2 | h2) | h2) | h2) | h2) | h2 <;> subst h2 <;> decide

theorem takeWhile_nil_of_head {p : Char → Bool} {r : List Char}
    (h : ∀ c t, r = c :: t → p c = false) :
    r.takeWhile p = [] ∧ r.dropWhile p = r := by
  rcases r with _ | ⟨c, t⟩
  · simp
  · simp [List.takeWhile_cons, List.dropWhile_cons, h c t rfl]

theorem tail_head_not_digit {fp : Option (Char × List Char)} (S B : List Char)
    (h3 : FracShape fp) (hS : ∀ c ∈ S, isWs c = true) :
    ∀ c t, S ++ '%' :: B = c :: t → isDigit c = false := by
  intro c t hct
  rcases S with _ | ⟨s0, S'⟩
  · simp only [List.nil_append] at hct
    injection hct with h1 _
    rw [← h1]
    decide
  · simp only [List.cons_append] at hct
    injection hct with h1 _
    rw [← h1]
    exact isWs_not_isDigit (hS s0 (by simp))

theorem matchNumber_of_shape {ip : List Char} {fp : Option (Char × List Char)}
    (S B : List Char) (h1 : ip ≠ []) (h2 : ∀ c ∈ ip, isDigit c = true)
    (h3 : FracShape fp) (hS : ∀ c ∈ S, isWs c = true) :
    matchNumber (ip ++ fracRender fp ++ S ++ '%' :: B) =
      some ⟨ip, fp, S ++ '%' :: B⟩ := by
  rcases ip with _ | ⟨c, cs0⟩
  · exact absurd rfl h1
  have hcs0 : ∀ d ∈ cs0, isDigit d = true := fun d hd => h2 d (by simp [hd])
  have htail := takeWhile_nil_of_head (tail_head_not_digit S B h3 hS)
  rcases hnf : fp with _ | ⟨s, ds⟩
  · unfold fracRender
    simp only [List.append_assoc, List.cons_append, List.append_nil, matchNumber,
      if_pos (h2 c (by simp))]
    simp only [takeWhile_app_all hcs0, dropWhile_app_all hcs0, htail.1, htail.2,
      List.append_nil]
    rcases hSB : S ++ '%' :: B with _ | ⟨x, xs⟩
    · rcases S <;> simp at hSB
    rcases xs with _ | ⟨y, ys⟩
    · rfl
    · have hx2 : x ≠ '.' ∧ x ≠ ',' := by
        rcases S with _ | ⟨s0, S'⟩
        · simp only [List.nil_append] at hSB
          injection hSB with hh _
          rw [← hh]
          exact ⟨by decide, by decide⟩
        · simp only [List.cons_append] at hSB
          injection hSB with hh _
          have hws := hS s0 (by simp)
          rw [← hh]
          constructor <;> (intro heq; rw [heq] at hws; exact absurd hws (by decide))
      dsimp only
      rw [if_neg (by simp [hx2.1, hx2.2])]
  · obtain ⟨hs, hds, hdsd⟩ : (s = '.' ∨ s = ',') ∧ ds ≠ [] ∧ ∀ c ∈ ds, isDigit c = true := by
      rw [hnf] at h3
      exact h3
    rcases ds with _ | ⟨d, ds'⟩
    · exact absurd rfl hds
    have hds' : ∀ e ∈ ds', isDigit e = true := fun e he => hdsd e (by simp [he])
    have hsd : isDigit s = false := by
      rcases hs with hs | hs <;> rw [hs] <;> decide
    unfold fracRender
    simp only [List.cons_append, matchNumber, if_pos (h2 c (by simp))]
    simp only [List.append_assoc, List.cons_append, takeWhile_app_all hcs0,
      dropWhile_app_all hcs0]
    have hsplit : (s :: d :: (ds' ++ (S ++ '%' :: B))).takeWhile isDigit = [] ∧
        (s :: d :: (ds' ++ (S ++ '%' :: B))).dropWhile isDigit =
          s :: d :: (ds' ++ (S ++ '%' :: B)) := by
      refine takeWhile_nil_of_head ?_
      intro e t het
      injection het with hh _
      rw [← hh]
      exact hsd
    simp only [hsplit.1, List.append_nil, hsplit.2]
    rw [if_pos (by simp [hdsd d (by simp), hs])]
    simp only [takeWhile_app_all hds', dropWhile_app_all hds', htail.1, htail.2,
      List.append_nil]

theorem searchNumUnit_isSome_cons {u : List Char → Bool} {c : Char} {cs : List Char}
    (h : (searchNumUnit u cs).isSome = true) :
    (searchNumUnit u (c :: cs)).isSome = true := by
  unfold searchNumUnit
  rcases hmn : matchNumber (c :: cs) with _ | nm
  · exact h
  · dsimp only
    split_ifs
    · rfl
    · exact h

theorem searchNumUnit_pct_complete {l : List Char} (h : FatPatternWs l) :
    (searchNumUnit unitPct l).isSome = true := by
  obtain ⟨A, ip, fp, S, B, h1, h2, h3, hS, hl⟩ := h
  subst hl
  induction A with
  | nil =>
    simp only [List.nil_append]
    rcases ip with _ | ⟨c, cs0⟩
    · exact absurd rfl h1
    have hmn := matchNumber_of_shape S B (List.cons_ne_nil c cs0) h2 h3 hS
    simp only [List.cons_append] at hmn ⊢
    unfold searchNumUnit
    rw [hmn]
    dsimp only
    have hpct : unitPct ((S ++ '%' :: B).dropWhile isWs) = true := by
      rw [dropWhile_app_all hS]
      have : ('%' :: B).dropWhile isWs = '%' :: B := by
        simp [List.dropWhile_cons, isWs]
      rw [this]
      simp [unitPct]
    rw [if_pos hpct]
    rfl
  | cons a A' ih =>
    exact searchNumUnit_isSome_cons ih

/-- Claim C7 (amended): `parse_product_attributes` sets `fat_percent` iff
the lowered name contains a decimal number followed, possibly after
whitespace, by a percent sign; the stored value is the value of such a
matched decimal, its comma separator read as a period. -/
theorem c7_fat_iff (name : String) :
    ((parse_product_attributes name).fat_percent.isSome = true ↔
      FatPatternWs (pyLower name.data)) ∧
    (∀ v, (parse_product_attributes name).fat_percent = some v →
      ∃ A ip fp S B, ip ≠ [] ∧ (∀ c ∈ ip, isDigit c = true) ∧ FracShape fp ∧
        (∀ c ∈ S, isWs c = true) ∧
        pyLower name.data = A ++ ip ++ fracRender fp ++ S ++ '%' :: B ∧
        v = specDecimalVal ip fp) := by
  have hfat : (parse_product_attributes name).fat_percent =
      (searchNumUnit unitPct (pyLower name.data)).map floatOfGroup := rfl
  constructor
  · rw [hfat]
    constructor
    · intro hsome
      rcases hg : searchNumUnit unitPct (pyLower name.data) with _ | g
      · rw [hg] at hsome
        exact absurd hsome (by simp)
      obtain ⟨A, rest, hl, nm, hmn, hu, _⟩ := searchNumUnit_split hg
      obtain ⟨hip, hipd, hfr⟩ := matchNumber_shape hmn
      obtain ⟨B, hB⟩ := unitPct_shape hu
      have hrest : nm.rest = nm.rest.takeWhile isWs ++ '%' :: B := by
        conv_lhs => rw [← List.takeWhile_append_dropWhile isWs nm.rest]
        rw [hB]
      refine ⟨A, nm.ip, nm.frac, nm.rest.takeWhile isWs, B, hip, hipd, ?_, ?_, ?_⟩
      · rcases hnf : nm.frac with _ | ⟨s, ds⟩
        · exact trivial
        · exact hfr s ds hnf
      · exact fun c hc => List.mem_takeWhile_imp hc
      · rw [hl, matchNumber_split hmn]
        conv_lhs => rw [hrest]
        simp [List.append_assoc]
    · intro hp
      have := searchNumUnit_pct_complete hp
      rcases hg : searchNumUnit unitPct (pyLower name.data) with _ | g
      · rw [hg] at this
        exact absurd this (by simp)
      · simp
  · intro v hv
    rw [hfat] at hv
    rcases hg : searchNumUnit unitPct (pyLower name.data) with _ | g
    · rw [hg] at hv
      exact absurd hv (by simp)
    rw [hg] at hv
    have hvg : v = floatOfGroup g := by
      simpa using hv.symm
    obtain ⟨A, rest, hl, nm, hmn, hu, hgnm⟩ := searchNumUnit_split hg
    obtain ⟨hip, hipd, hfr⟩ := matchNumber_shape hmn
    obtain ⟨B, hB⟩ := unitPct_shape hu
    have hrest : nm.rest = nm.rest.takeWhile isWs ++ '%' :: B := by
      conv_lhs => rw [← List.takeWhile_append_dropWhile isWs nm.rest]
      rw [hB]
    refine ⟨A, nm.ip, nm.frac, nm.rest.takeWhile isWs, B, hip, hipd, ?_, ?_, ?_, ?_⟩
    · rcases hnf : nm.frac with _ | ⟨s, ds⟩
      · exact trivial
      · exact hfr s ds hnf
    · exact fun c hc => List.mem_takeWhile_imp hc
    · rw [hl, matchNumber_split hmn]
      conv_lhs => rw [hrest]
      simp [List.append_assoc]
    · rw [hvg, hgnm]
      exact floatOfGroup_val hmn

/-- Witness for C7 (amended) on a concrete name with a comma decimal. -/
theorem c7_fat_iff_witness :
    (parse_product_attributes "2,5%").fat_percent = some (5 / 2) ∧
    FatPatternWs (pyLower (String.data "2,5%")) :=
  ⟨by decide, (c7_fat_iff "2,5%").1.mp (by decide)⟩

/-- Counterexample to C7 as stated: in "5 %" no decimal is immediately
followed by the percent sign (whitespace intervenes), yet the extractor
sets `fat_percent` because its pattern permits whitespace before `%`. -/
theorem c7_counterexample :
    (parse_product_attributes "5 %").fat_percent = some 5 ∧
      specFatImmediate (pyLower (String.data "5 %")) = false := by
  constructor
  · decide
  · decide

end Pricio
